import Mathlib

/-!
Verification of the pseudonymization-lgpd-tools Go library.

The Go code is shallowly embedded: Go byte slices and strings of raw bytes
become `List Nat` with every element `< 256`; Go strings that name textual
output (hex digests, base64 ciphertext, CPF strings) become Lean `String`;
fallible Go functions returning `(T, error)` become `Except PError T`.
Randomness (`rand.Read` nonces, `uuid.New()`, `time.Now()`) is passed in as
explicit parameters, so every function is a pure function of its inputs.

The cryptographic primitives the library calls from the Go standard library
(`crypto/sha256`, `crypto/aes`, `cipher.NewGCM`, `encoding/base64`,
`encoding/hex`) are embedded concretely and faithfully to their standards
(FIPS 180-4, FIPS 197, NIST SP 800-38D, RFC 4648) so that the service code
built on top of them is verified over the real primitives.
-/

namespace Pseudonymization

/-! ### Bytes and hex encoding (`encoding/hex`) -/

/-- A Go byte slice / raw-byte string: a list of byte values. -/
abbrev Bytes := List Nat

/-- All elements are genuine bytes (`< 256`). -/
def ByteBounded (bs : Bytes) : Prop := ∀ b ∈ bs, b < 256

instance : DecidablePred ByteBounded := fun bs =>
  inferInstanceAs (Decidable (∀ b ∈ bs, b < 256))

/-- `encoding/hex`'s digit table, `hextable = "0123456789abcdef"`. -/
def hextable : String := "0123456789abcdef"

/-- Lowercase hex digit for a value `< 16`, as in `encoding/hex`. -/
def hexDigit (n : Nat) : Char := hextable.toList.getD n '0'

/-- `hex.EncodeToString`: two lowercase hex characters per byte. -/
def hexEncodeToString (bs : Bytes) : String :=
  String.mk (bs.flatMap fun b => [hexDigit (b / 16 % 16), hexDigit (b % 16)])

/-! ### SHA-256 (`crypto/sha256`, FIPS 180-4) -/

/-- Reduce modulo `2^32` (32-bit word arithmetic). -/
def m32 (x : Nat) : Nat := x % 4294967296

/-- Rotate a 32-bit word right by `n` bits. -/
def rotr (n x : Nat) : Nat := x / 2 ^ n + x % 2 ^ n * 2 ^ (32 - n)

/-- SHA-256 round constants (fractional parts of cube roots of the first
64 primes). -/
def shaK : List Nat := [
  1116352408, 1899447441, 3049323471, 3921009573, 961987163, 1508970993,
  2453635748, 2870763221, 3624381080, 310598401, 607225278, 1426881987,
  1925078388, 2162078206, 2614888103, 3248222580, 3835390401, 4022224774,
  264347078, 604807628, 770255983, 1249150122, 1555081692, 1996064986,
  2554220882, 2821834349, 2952996808, 3210313671, 3336571891, 3584528711,
  113926993, 338241895, 666307205, 773529912, 1294757372, 1396182291,
  1695183700, 1986661051, 2177026350, 2456956037, 2730485921, 2820302411,
  3259730800, 3345764771, 3516065817, 3600352804, 4094571909, 275423344,
  430227734, 506948616, 659060556, 883997877, 958139571, 1322822218,
  1537002063, 1747873779, 1955562222, 2024104815, 2227730452, 2361852424,
  2428436474, 2756734187, 3204031479, 3329325298]

/-- SHA-256 initial hash value. -/
def shaH0 : List Nat :=
  [1779033703, 3144134277, 1013904242, 2773480762,
   1359893119, 2600822924, 528734635, 1541459225]

/-- FIPS 180-4 `Ch(x,y,z)`. -/
def shaCh (x y z : Nat) : Nat := (x &&& y) ^^^ ((x ^^^ 0xFFFFFFFF) &&& z)

/-- FIPS 180-4 `Maj(x,y,z)`. -/
def shaMaj (x y z : Nat) : Nat := (x &&& y) ^^^ (x &&& z) ^^^ (y &&& z)

/-- FIPS 180-4 `Σ0`. -/
def sigma0 (x : Nat) : Nat := rotr 2 x ^^^ rotr 13 x ^^^ rotr 22 x

/-- FIPS 180-4 `Σ1`. -/
def sigma1 (x : Nat) : Nat := rotr 6 x ^^^ rotr 11 x ^^^ rotr 25 x

/-- FIPS 180-4 `σ0`. -/
def ssigma0 (x : Nat) : Nat := rotr 7 x ^^^ rotr 18 x ^^^ x / 2 ^ 3

/-- FIPS 180-4 `σ1`. -/
def ssigma1 (x : Nat) : Nat := rotr 17 x ^^^ rotr 19 x ^^^ x / 2 ^ 10

/-- Big-endian 8-byte encoding of a (64-bit) natural number. -/
def be64 (n : Nat) : Bytes :=
  [n / 2 ^ 56 % 256, n / 2 ^ 48 % 256, n / 2 ^ 40 % 256, n / 2 ^ 32 % 256,
   n / 2 ^ 24 % 256, n / 2 ^ 16 % 256, n / 2 ^ 8 % 256, n % 256]

/-- SHA-256 message padding: `0x80`, zeros, then the big-endian 64-bit bit
length, to a multiple of 64 bytes. -/
def shaPad (msg : Bytes) : Bytes :=
  msg ++ [0x80] ++ List.replicate ((64 - (msg.length + 9) % 64) % 64) 0
      ++ be64 (8 * msg.length)

/-- Group bytes into big-endian 32-bit words (4 bytes per word). -/
def bytesToWords : Bytes → List Nat
  | b0 :: b1 :: b2 :: b3 :: rest =>
      (b0 * 2 ^ 24 + b1 * 2 ^ 16 + b2 * 2 ^ 8 + b3) :: bytesToWords rest
  | _ => []

/-- Structural worker for `chunksOf`: the fuel starts at the list length
and bounds the number of chunks, keeping the recursion kernel-reducible. -/
def chunksOfGo (n : Nat) : Nat → List α → List (List α)
  | _, [] => []
  | 0, _ => []
  | fuel + 1, l => if n = 0 then [] else l.take n :: chunksOfGo n fuel (l.drop n)

/-- Split a list into chunks of `n` elements (`n > 0`); used for the 64-byte
SHA-256 blocks and the 16-byte GHASH blocks. -/
def chunksOf (n : Nat) (l : List α) : List (List α) :=
  chunksOfGo n l.length l

/-- Message-schedule expansion of a 16-word block to 64 words. -/
def shaSchedule (block : List Nat) : List Nat :=
  (List.range 48).foldl
    (fun w _ =>
      let t := w.length
      w ++ [m32 (ssigma1 (w.getD (t - 2) 0) + w.getD (t - 7) 0 +
                 ssigma0 (w.getD (t - 15) 0) + w.getD (t - 16) 0)])
    block

/-- One SHA-256 compression of a 64-byte block into the running hash. -/
def shaCompress (H : List Nat) (block : Bytes) : List Nat :=
  let w := shaSchedule (bytesToWords block)
  let final := (List.range 64).foldl
    (fun (v : List Nat) t =>
      let a := v.getD 0 0; let b := v.getD 1 0; let c := v.getD 2 0
      let d := v.getD 3 0; let e := v.getD 4 0; let f := v.getD 5 0
      let g := v.getD 6 0; let h := v.getD 7 0
      let T1 := m32 (h + sigma1 e + shaCh e f g + shaK.getD t 0 + w.getD t 0)
      let T2 := m32 (sigma0 a + shaMaj a b c)
      [m32 (T1 + T2), a, b, c, m32 (d + T1), e, f, g])
    H
  (List.range 8).map fun i => m32 (H.getD i 0 + final.getD i 0)

/-- Big-endian 4-byte encoding of a 32-bit word. -/
def wordToBytes (w : Nat) : Bytes :=
  [w / 2 ^ 24 % 256, w / 2 ^ 16 % 256, w / 2 ^ 8 % 256, w % 256]

/-- `sha256.Sum256`: the 32-byte SHA-256 digest of a byte string. -/
def sha256 (msg : Bytes) : Bytes :=
  ((chunksOf 64 (shaPad msg)).foldl shaCompress shaH0).flatMap wordToBytes

/-! ### Standard base64 (`encoding/base64` `StdEncoding`, RFC 4648) -/

/-- The standard base64 alphabet. -/
def b64Alphabet : List Char :=
  ['A', 'B', 'C', 'D', 'E', 'F', 'G', 'H', 'I', 'J', 'K', 'L', 'M',
   'N', 'O', 'P', 'Q', 'R', 'S', 'T', 'U', 'V', 'W', 'X', 'Y', 'Z',
   'a', 'b', 'c', 'd', 'e', 'f', 'g', 'h', 'i', 'j', 'k', 'l', 'm',
   'n', 'o', 'p', 'q', 'r', 's', 't', 'u', 'v', 'w', 'x', 'y', 'z',
   '0', '1', '2', '3', '4', '5', '6', '7', '8', '9', '+', '/']

/-- Character encoding a sextet value `< 64`. -/
def b64Char (n : Nat) : Char := b64Alphabet.getD n 'A'

/-- Sextet value of a base64 character; `none` for characters outside the
alphabet (including `=`). -/
def b64Index (c : Char) : Option Nat :=
  b64Alphabet.findIdx? (· = c)

/-- `base64.StdEncoding.EncodeToString`, over the char list: 3 bytes become
4 characters; a final 1- or 2-byte group is padded with `=`. -/
def b64EncodeChars : Bytes → List Char
  | [] => []
  | [b1] => [b64Char (b1 / 4), b64Char (b1 % 4 * 16), '=', '=']
  | [b1, b2] =>
      [b64Char (b1 / 4), b64Char (b1 % 4 * 16 + b2 / 16), b64Char (b2 % 16 * 4), '=']
  | b1 :: b2 :: b3 :: rest =>
      b64Char (b1 / 4) :: b64Char (b1 % 4 * 16 + b2 / 16) ::
      b64Char (b2 % 16 * 4 + b3 / 64) :: b64Char (b3 % 64) :: b64EncodeChars rest

/-- `base64.StdEncoding.EncodeToString`. -/
def b64Encode (bs : Bytes) : String := String.mk (b64EncodeChars bs)

/-- Decoding of complete 4-character base64 quanta with `StdEncoding`'s
padding rules: `=` may appear only as `xx==` or `xxx=` in the final quantum;
any other shape, any character outside the alphabet, or a leftover of 1–3
characters is an error (`none`). -/
def b64DecodeChars : List Char → Option Bytes
  | [] => some []
  | c0 :: c1 :: c2 :: c3 :: rest =>
      match b64Index c0, b64Index c1 with
      | some s0, some s1 =>
        if c2 = '=' then
          if c3 = '=' ∧ rest = [] then some [s0 * 4 + s1 / 16] else none
        else
          match b64Index c2 with
          | some s2 =>
            if c3 = '=' then
              if rest = [] then some [s0 * 4 + s1 / 16, s1 % 16 * 16 + s2 / 4]
              else none
            else
              match b64Index c3 with
              | some s3 =>
                (b64DecodeChars rest).map fun bs =>
                  (s0 * 4 + s1 / 16) :: (s1 % 16 * 16 + s2 / 4) :: (s2 % 4 * 64 + s3) :: bs
              | none => none
          | none => none
      | _, _ => none
  | _ => none

/-- `base64.StdEncoding.DecodeString`: the Go decoder ignores `\r` and `\n`
anywhere in the input, then consumes full 4-character quanta. -/
def b64Decode (s : String) : Option Bytes :=
  b64DecodeChars (s.toList.filter fun c => ¬(c = '\r' ∨ c = '\n'))

end Pseudonymization

namespace Utils

/-! ### CPF utilities (`utils/br_cpf_tools.go`)

Go indexes the CPF strings byte-wise and iterates runes; every string
involved is ASCII, so Lean `String`/`Char` operations coincide. -/

/-- `cleanCPF`: keep only ASCII digit characters. -/
def cleanCPF (cpf : String) : String :=
  String.mk (cpf.toList.filter fun c => '0' ≤ c ∧ c ≤ '9')

/-- `allDigitsSame`: every character equals the first.  Go reads `cpf[0]`
unconditionally; callers only pass 11-character strings. -/
def allDigitsSame (cpf : String) : Bool :=
  match cpf.toList with
  | [] => true
  | c :: rest => rest.all (· = c)

/-- `calculateCPFCheckDigit`: weighted digit sum mod 11, starting from the
given weight and decrementing per character; result is an ASCII digit.  The
callers only pass digit-only strings whose length is at most `weight - 1`. -/
def calculateCPFCheckDigit (partialCPF : String) (weight : Nat) : Char :=
  let sum := (partialCPF.toList.enum.map
    (fun p => (p.2.toNat - '0'.toNat) * (weight - p.1))).sum
  let remainder := sum % 11
  if remainder < 2 then '0' else Char.ofNat ('0'.toNat + (11 - remainder))

/-- `IsValidCPF`: strip formatting, require 11 digits, reject repeated-digit
patterns, and check both check digits. -/
def IsValidCPF (cpf : String) : Bool :=
  let cleaned := cleanCPF cpf
  if cleaned.length ≠ 11 then false
  else if allDigitsSame cleaned then false
  else
    let l := cleaned.toList
    let firstDigit := calculateCPFCheckDigit (String.mk (l.take 9)) 10
    let secondDigit := calculateCPFCheckDigit (String.mk (l.take 10)) 11
    l.getD 9 ' ' = firstDigit ∧ l.getD 10 ' ' = secondDigit

/-- `formatCPF`: `ddd.ddd.ddd-dd` punctuation for an 11-digit string. -/
def formatCPF (cpf : String) : String :=
  if cpf.length ≠ 11 then cpf
  else
    let l := cpf.toList
    String.mk (l.take 3) ++ "." ++ String.mk ((l.drop 3).take 3) ++ "." ++
      String.mk ((l.drop 6).take 3) ++ "-" ++ String.mk (l.drop 9)

/-- `GenerateSyntheticCPF`, with the six bytes produced by `rand.Read`
passed explicitly: prefix `999`, six random digits (each byte mod 10), then
the two computed check digits, formatted. -/
def GenerateSyntheticCPF (randomDigits : List Nat) : String :=
  let digits := randomDigits.map fun b => Char.ofNat ('0'.toNat + b % 10)
  let partialCPF := "999" ++ String.mk digits
  let firstDigit := calculateCPFCheckDigit partialCPF 10
  let partialCPF2 := partialCPF.push firstDigit
  let secondDigit := calculateCPFCheckDigit partialCPF2 11
  formatCPF (partialCPF2.push secondDigit)

end Utils

namespace Pseudonymization

/-! ### AES block cipher (`crypto/aes`, FIPS 197) -/

/-- The AES S-box. -/
def sbox : List Nat := [
  0x63, 0x7c, 0x77, 0x7b, 0xf2, 0x6b, 0x6f, 0xc5, 0x30, 0x01, 0x67, 0x2b, 0xfe, 0xd7, 0xab, 0x76,
  0xca, 0x82, 0xc9, 0x7d, 0xfa, 0x59, 0x47, 0xf0, 0xad, 0xd4, 0xa2, 0xaf, 0x9c, 0xa4, 0x72, 0xc0,
  0xb7, 0xfd, 0x93, 0x26, 0x36, 0x3f, 0xf7, 0xcc, 0x34, 0xa5, 0xe5, 0xf1, 0x71, 0xd8, 0x31, 0x15,
  0x04, 0xc7, 0x23, 0xc3, 0x18, 0x96, 0x05, 0x9a, 0x07, 0x12, 0x80, 0xe2, 0xeb, 0x27, 0xb2, 0x75,
  0x09, 0x83, 0x2c, 0x1a, 0x1b, 0x6e, 0x5a, 0xa0, 0x52, 0x3b, 0xd6, 0xb3, 0x29, 0xe3, 0x2f, 0x84,
  0x53, 0xd1, 0x00, 0xed, 0x20, 0xfc, 0xb1, 0x5b, 0x6a, 0xcb, 0xbe, 0x39, 0x4a, 0x4c, 0x58, 0xcf,
  0xd0, 0xef, 0xaa, 0xfb, 0x43, 0x4d, 0x33, 0x85, 0x45, 0xf9, 0x02, 0x7f, 0x50, 0x3c, 0x9f, 0xa8,
  0x51, 0xa3, 0x40, 0x8f, 0x92, 0x9d, 0x38, 0xf5, 0xbc, 0xb6, 0xda, 0x21, 0x10, 0xff, 0xf3, 0xd2,
  0xcd, 0x0c, 0x13, 0xec, 0x5f, 0x97, 0x44, 0x17, 0xc4, 0xa7, 0x7e, 0x3d, 0x64, 0x5d, 0x19, 0x73,
  0x60, 0x81, 0x4f, 0xdc, 0x22, 0x2a, 0x90, 0x88, 0x46, 0xee, 0xb8, 0x14, 0xde, 0x5e, 0x0b, 0xdb,
  0xe0, 0x32, 0x3a, 0x0a, 0x49, 0x06, 0x24, 0x5c, 0xc2, 0xd3, 0xac, 0x62, 0x91, 0x95, 0xe4, 0x79,
  0xe7, 0xc8, 0x37, 0x6d, 0x8d, 0xd5, 0x4e, 0xa9, 0x6c, 0x56, 0xf4, 0xea, 0x65, 0x7a, 0xae, 0x08,
  0xba, 0x78, 0x25, 0x2e, 0x1c, 0xa6, 0xb4, 0xc6, 0xe8, 0xdd, 0x74, 0x1f, 0x4b, 0xbd, 0x8b, 0x8a,
  0x70, 0x3e, 0xb5, 0x66, 0x48, 0x03, 0xf6, 0x0e, 0x61, 0x35, 0x57, 0xb9, 0x86, 0xc1, 0x1d, 0x9e,
  0xe1, 0xf8, 0x98, 0x11, 0x69, 0xd9, 0x8e, 0x94, 0x9b, 0x1e, 0x87, 0xe9, 0xce, 0x55, 0x28, 0xdf,
  0x8c, 0xa1, 0x89, 0x0d, 0xbf, 0xe6, 0x42, 0x68, 0x41, 0x99, 0x2d, 0x0f, 0xb0, 0x54, 0xbb, 0x16]

/-- S-box substitution of one byte. -/
def subByte (b : Nat) : Nat := sbox.getD b 0

/-- Rotate a 32-bit word left by one byte. -/
def rotWord (w : Nat) : Nat := w % 0x1000000 * 256 + w / 0x1000000

/-- S-box substitution on each byte of a 32-bit word. -/
def subWord (w : Nat) : Nat :=
  subByte (w / 2 ^ 24 % 256) * 2 ^ 24 + subByte (w / 2 ^ 16 % 256) * 2 ^ 16 +
    subByte (w / 2 ^ 8 % 256) * 2 ^ 8 + subByte (w % 256)

/-- AES round constants, already shifted into the high byte of a word. -/
def rcon : List Nat :=
  [0x01000000, 0x02000000, 0x04000000, 0x08000000, 0x10000000,
   0x20000000, 0x40000000, 0x80000000, 0x1B000000, 0x36000000]

/-- AES key expansion (FIPS 197 §5.2) for `Nk ∈ {4, 6, 8}`: the
`4 * (Nr + 1)` round-key words. -/
def expandKey (key : Bytes) : List Nat :=
  let Nk := key.length / 4
  let Nr := Nk + 6
  let initial := bytesToWords key
  (List.range (4 * (Nr + 1) - Nk)).foldl
    (fun ws _ =>
      let j := ws.length
      let temp := ws.getD (j - 1) 0
      let temp :=
        if j % Nk = 0 then subWord (rotWord temp) ^^^ rcon.getD (j / Nk - 1) 0
        else if 6 < Nk ∧ j % Nk = 4 then subWord temp
        else temp
      ws ++ [temp ^^^ ws.getD (j - Nk) 0])
    initial

/-- The 16 bytes of round key `r` from the expanded word list. -/
def roundKeyBytes (ws : List Nat) (r : Nat) : Bytes :=
  ((List.range 4).map fun i => wordToBytes (ws.getD (4 * r + i) 0)).flatten

/-- XOR the state with a round key, byte by byte. -/
def addRoundKey (st rk : Bytes) : Bytes := st.zipWith Nat.xor rk

/-- Multiplication by `x` in GF(2^8) modulo `x^8 + x^4 + x^3 + x + 1`. -/
def xtime (b : Nat) : Nat :=
  let t := 2 * b
  if 256 ≤ t then (t - 256) ^^^ 0x1B else t

/-- ShiftRows on the flat column-major state: the byte at column `c`,
row `r` moves in from column `(c + r) mod 4`. -/
def shiftRows (st : Bytes) : Bytes :=
  (List.range 16).map fun i => st.getD (4 * ((i / 4 + i % 4) % 4) + i % 4) 0

/-- MixColumns on one 4-byte column. -/
def mixColumn (a : Bytes) : Bytes :=
  let a0 := a.getD 0 0; let a1 := a.getD 1 0
  let a2 := a.getD 2 0; let a3 := a.getD 3 0
  [xtime a0 ^^^ (xtime a1 ^^^ a1) ^^^ a2 ^^^ a3,
   a0 ^^^ xtime a1 ^^^ (xtime a2 ^^^ a2) ^^^ a3,
   a0 ^^^ a1 ^^^ xtime a2 ^^^ (xtime a3 ^^^ a3),
   (xtime a0 ^^^ a0) ^^^ a1 ^^^ a2 ^^^ xtime a3]

/-- MixColumns on the whole state. -/
def mixColumns (st : Bytes) : Bytes :=
  ((chunksOf 4 st).map mixColumn).flatten

/-- AES block encryption (FIPS 197 §5.1) of a 16-byte block. -/
def aesEncrypt (key : Bytes) (blk : Bytes) : Bytes :=
  let ws := expandKey key
  let Nr := key.length / 4 + 6
  let st0 := addRoundKey blk (roundKeyBytes ws 0)
  let stN := (List.range (Nr - 1)).foldl
    (fun st r =>
      addRoundKey (mixColumns (shiftRows (st.map subByte))) (roundKeyBytes ws (r + 1)))
    st0
  addRoundKey (shiftRows (stN.map subByte)) (roundKeyBytes ws Nr)

/-! ### GCM mode (`cipher.NewGCM`, NIST SP 800-38D)

GCM blocks are 128-bit values; byte strings convert big-endian. -/

/-- Big-endian value of a byte string. -/
def bytesToNat (bs : Bytes) : Nat := bs.foldl (fun acc b => acc * 256 + b) 0

/-- Big-endian 16-byte encoding of a 128-bit value; every output byte is
`< 256` by construction. -/
def natToBytes16 (n : Nat) : Bytes :=
  (List.range 16).map fun i => n / 2 ^ (8 * (15 - i)) % 256

/-- Multiplication in GCM's GF(2^128) (SP 800-38D §6.3), on big-endian
128-bit block values. -/
def gmul (X Y : Nat) : Nat :=
  ((List.range 128).foldl
    (fun ZV i =>
      let Z := if X.testBit (127 - i) then ZV.1 ^^^ ZV.2 else ZV.1
      let V := if ZV.2 % 2 = 1 then ZV.2 / 2 ^^^ 0xE1000000000000000000000000000000
               else ZV.2 / 2
      (Z, V))
    ((0 : Nat), Y)).1

/-- GHASH over whole 16-byte blocks of `data` (whose length callers pad to a
multiple of 16). -/
def ghash (H : Nat) (data : Bytes) : Nat :=
  (chunksOf 16 data).foldl (fun Y blk => gmul (Y ^^^ bytesToNat blk) H) 0

/-- Zero-pad a byte string to a multiple of 16 bytes. -/
def pad16 (bs : Bytes) : Bytes :=
  bs ++ List.replicate ((16 - bs.length % 16) % 16) 0

/-- Big-endian 4-byte encoding of a 32-bit counter value. -/
def be32 (n : Nat) : Bytes :=
  [n / 2 ^ 24 % 256, n / 2 ^ 16 % 256, n / 2 ^ 8 % 256, n % 256]

/-- The GCM hash subkey `H = CIPH_K(0^128)`. -/
def gcmH (key : Bytes) : Nat := bytesToNat (aesEncrypt key (List.replicate 16 0))

/-- Counter block `nonce ‖ c` for a 96-bit nonce (`inc32` wraps mod `2^32`);
`c = 1` is the pre-counter block `J0`. -/
def ctrBlock (nonce : Bytes) (c : Nat) : Bytes := nonce ++ be32 (c % 2 ^ 32)

/-- The CTR keystream for `n` bytes: encryptions of the counter blocks
`J0 + 1, J0 + 2, …`, truncated to `n` bytes.  Each byte is `< 256` by
construction. -/
def gcmKeystream (key nonce : Bytes) (n : Nat) : Bytes :=
  (((List.range ((n + 15) / 16)).map fun i =>
      natToBytes16 (bytesToNat (aesEncrypt key (ctrBlock nonce (2 + i))))).flatten).take n

/-- The GCM authentication tag over a ciphertext (no associated data):
`GHASH_H(pad(C) ‖ len64(A) ‖ len64(C)) ⊕ CIPH_K(J0)`. -/
def gcmTag (key nonce ct : Bytes) : Bytes :=
  let S := ghash (gcmH key) (pad16 ct ++ be64 0 ++ be64 (8 * ct.length))
  natToBytes16 (S ^^^ bytesToNat (aesEncrypt key (ctrBlock nonce 1)))

/-- `gcm.Seal(nil, nonce, pt, nil)` for a 12-byte nonce: CTR-encrypted
plaintext followed by the 16-byte tag. -/
def gcmSeal (key nonce pt : Bytes) : Bytes :=
  let ct := pt.zipWith Nat.xor (gcmKeystream key nonce pt.length)
  ct ++ gcmTag key nonce ct

/-- `gcm.Open(nil, nonce, data, nil)`: reject inputs shorter than the
16-byte tag, recompute the tag over the ciphertext part, compare, and
CTR-decrypt on success; `none` is Go's `ErrOpen` ("message authentication
failed"). -/
def gcmOpen (key nonce data : Bytes) : Option Bytes :=
  if data.length < 16 then none
  else
    let ct := data.take (data.length - 16)
    let tag := data.drop (data.length - 16)
    if tag = gcmTag key nonce ct then
      some (ct.zipWith Nat.xor (gcmKeystream key nonce ct.length))
    else none

end Pseudonymization

namespace Pseudonymization

/-! ### The pseudonymization service (`pseudonymization.go`) -/

/-- The error kinds the service can signal, following the spec's taxonomy.
Go represents them as wrapped `error` values; the constructors record the
kind and, for `Pseudonymize`'s wrapper (`fmt.Errorf("encryption failed:
%w", err)`), the wrapped cause. -/
inductive PError where
  /-- `errors.New("value cannot be empty")` from `Pseudonymize`. -/
  | emptyInput : PError
  /-- `aes.KeySizeError` from `aes.NewCipher` on a key whose length is not
  16, 24, or 32 bytes. -/
  | keySizeFailure : PError
  /-- `Pseudonymize`'s wrapper around an `encrypt` error. -/
  | encryptionFailure : PError → PError
  /-- `base64.CorruptInputError` from `base64.StdEncoding.DecodeString`. -/
  | decodingFailure : PError
  /-- `errors.New("ciphertext too short")` from `decrypt`. -/
  | truncatedCiphertext : PError
  /-- `cipher: message authentication failed` from `gcm.Open`. -/
  | authenticationFailure : PError
deriving DecidableEq

instance {ε α : Type} [DecidableEq ε] [DecidableEq α] :
    DecidableEq (Except ε α) := fun a b =>
  match a, b with
  | .ok x, .ok y =>
      if h : x = y then isTrue (by rw [h]) else isFalse (by simp [h])
  | .error e, .error f =>
      if h : e = f then isTrue (by rw [h]) else isFalse (by simp [h])
  | .ok _, .error _ => isFalse (by simp)
  | .error _, .ok _ => isFalse (by simp)

/-- The `Result` struct: the artifacts of one pseudonymization. -/
structure Result where
  /-- SHA-256 hash of the original value, hex encoded. -/
  OriginalHash : String
  /-- Generated UUID v4 pseudonym. -/
  Pseudonym : String
  /-- AES-GCM encrypted original value, base64 encoded. -/
  EncryptedValue : String
  /-- Unix timestamp of the operation. -/
  Timestamp : Int
deriving DecidableEq

/-- The `Service` struct: holds the encryption key. -/
structure Service where
  /-- The caller-supplied symmetric key. -/
  encryptionKey : Bytes
deriving DecidableEq

/-- `NewService`: stores the key with no validation. -/
def NewService (encryptionKey : Bytes) : Service := ⟨encryptionKey⟩

/-- `aes.NewCipher` accepts exactly 16-, 24-, or 32-byte keys (AES-128,
AES-192, AES-256) and returns `aes.KeySizeError` otherwise. -/
def validKeySize (key : Bytes) : Bool :=
  key.length = 16 ∨ key.length = 24 ∨ key.length = 32

/-- `Service.Hash`: hex-encoded SHA-256 digest of the value's bytes. -/
def Service.Hash (_s : Service) (value : Bytes) : String :=
  hexEncodeToString (sha256 value)

/-- `Service.encrypt`: AES-GCM encryption of the plaintext under the
service key with the freshly drawn random `nonce` (the `rand.Read` result,
always `gcm.NonceSize() = 12` bytes), base64 encoded.  `gcm.Seal(nonce,
nonce, pt, nil)` prefixes the nonce to the sealed bytes. -/
def Service.encrypt (s : Service) (nonce : Bytes) (plaintext : Bytes) :
    Except PError String :=
  if validKeySize s.encryptionKey then
    Except.ok (b64Encode (nonce ++ gcmSeal s.encryptionKey nonce plaintext))
  else Except.error .keySizeFailure

/-- `Service.decrypt`: base64-decode, initialize the cipher, split off the
12-byte nonce, and run `gcm.Open`; the error cases follow the Go control
flow in order. -/
def Service.decrypt (s : Service) (ciphertext : String) :
    Except PError Bytes :=
  match b64Decode ciphertext with
  | none => Except.error .decodingFailure
  | some data =>
    if validKeySize s.encryptionKey then
      if data.length < 12 then Except.error .truncatedCiphertext
      else
        match gcmOpen s.encryptionKey (data.take 12) (data.drop 12) with
        | some plaintextBytes => Except.ok plaintextBytes
        | none => Except.error .authenticationFailure
    else Except.error .keySizeFailure

/-- `Service.Pseudonymize`: reject empty values, hash, encrypt, and bundle
the artifacts.  The random nonce, the generated UUID, and the current Unix
time are passed explicitly; `purpose` and `system` are carried for audit
only. -/
def Service.Pseudonymize (s : Service) (nonce : Bytes) (uuid : String)
    (now : Int) (value : Bytes) (_purpose _system : String) :
    Except PError Result :=
  if value.length = 0 then Except.error .emptyInput
  else
    let hashStr := hexEncodeToString (sha256 value)
    match s.encrypt nonce value with
    | Except.error e => Except.error (.encryptionFailure e)
    | Except.ok encrypted =>
      Except.ok ⟨hashStr, uuid, encrypted, now⟩

/-- `Service.Revert`: decrypt the value; Go wraps the `decrypt` error with
`fmt.Errorf("decryption failed: %w", err)`, which preserves the wrapped
error's kind, so the embedding returns the kind unchanged. -/
def Service.Revert (s : Service) (encryptedValue : String) :
    Except PError Bytes :=
  s.decrypt encryptedValue

end Pseudonymization

namespace Pseudonymization

/-! ### Lemmas: base64 round trip -/

theorem b64Index_b64Char : ∀ n, n < 64 → b64Index (b64Char n) = some n := by
  decide

theorem b64Char_ne_pad : ∀ n, n < 64 → b64Char n ≠ '=' := by
  decide

theorem b64Char_keep (n : Nat) :
    ¬(b64Char n = '\r' ∨ b64Char n = '\n') := by
  rcases Nat.lt_or_ge n 64 with h | h
  · revert n h; decide
  · have : b64Char n = 'A' := by
      unfold b64Char
      exact List.getD_eq_default _ _ (by simpa [b64Alphabet] using h)
    simp [this]

theorem b64EncodeChars_filter (bs : Bytes) :
    (b64EncodeChars bs).filter (fun c => ¬(c = '\r' ∨ c = '\n')) =
      b64EncodeChars bs := by
  apply List.filter_eq_self.mpr
  intro c hc
  suffices h : ¬(c = '\r' ∨ c = '\n') by simpa using h
  induction bs using b64EncodeChars.induct with
  | case1 => simp [b64EncodeChars] at hc
  | case2 b1 =>
      simp only [b64EncodeChars, List.mem_cons, List.not_mem_nil, or_false] at hc
      rcases hc with h | h | h | h <;> subst h <;>
        first
        | exact b64Char_keep _
        | simp
  | case3 b1 b2 =>
      simp only [b64EncodeChars, List.mem_cons, List.not_mem_nil, or_false] at hc
      rcases hc with h | h | h | h <;> subst h <;>
        first
        | exact b64Char_keep _
        | simp
  | case4 b1 b2 b3 rest ih =>
      simp only [b64EncodeChars, List.mem_cons] at hc
      rcases hc with h | h | h | h | h
      · subst h; exact b64Char_keep _
      · subst h; exact b64Char_keep _
      · subst h; exact b64Char_keep _
      · subst h; exact b64Char_keep _
      · exact ih h

end Pseudonymization

namespace Pseudonymization

theorem b64DecodeChars_encodeChars (bs : Bytes) :
    ByteBounded bs → b64DecodeChars (b64EncodeChars bs) = some bs := by
  induction bs using b64EncodeChars.induct with
  | case1 => intro _; simp [b64EncodeChars, b64DecodeChars]
  | case2 b1 =>
      intro hb
      have h1 : b1 < 256 := hb b1 (by simp)
      simp only [b64EncodeChars, b64DecodeChars,
        b64Index_b64Char (b1 / 4) (by omega),
        b64Index_b64Char (b1 % 4 * 16) (by omega),
        if_pos rfl, and_self, reduceIte]
      simp only [Option.some.injEq, List.cons.injEq, and_true]
      omega
  | case3 b1 b2 =>
      intro hb
      have h1 : b1 < 256 := hb b1 (by simp)
      have h2 : b2 < 256 := hb b2 (by simp)
      simp only [b64EncodeChars, b64DecodeChars,
        b64Index_b64Char (b1 / 4) (by omega),
        b64Index_b64Char (b1 % 4 * 16 + b2 / 16) (by omega),
        b64Index_b64Char (b2 % 16 * 4) (by omega),
        if_neg (b64Char_ne_pad (b2 % 16 * 4) (by omega)),
        if_pos rfl, reduceIte]
      simp only [Option.some.injEq, List.cons.injEq, and_true]
      omega
  | case4 b1 b2 b3 rest ih =>
      intro hb
      have h1 : b1 < 256 := hb b1 (by simp)
      have h2 : b2 < 256 := hb b2 (by simp)
      have h3 : b3 < 256 := hb b3 (by simp)
      have hrest : ByteBounded rest := fun b hbm => hb b (by simp [hbm])
      simp only [b64EncodeChars, b64DecodeChars,
        b64Index_b64Char (b1 / 4) (by omega),
        b64Index_b64Char (b1 % 4 * 16 + b2 / 16) (by omega),
        b64Index_b64Char (b2 % 16 * 4 + b3 / 64) (by omega),
        b64Index_b64Char (b3 % 64) (by omega),
        if_neg (b64Char_ne_pad (b2 % 16 * 4 + b3 / 64) (by omega)),
        if_neg (b64Char_ne_pad (b3 % 64) (by omega)),
        ih hrest, Option.map_some']
      simp only [Option.some.injEq, List.cons.injEq, and_true]
      omega

theorem b64Decode_b64Encode (bs : Bytes) (hb : ByteBounded bs) :
    b64Decode (b64Encode bs) = some bs := by
  unfold b64Decode b64Encode
  have : (String.mk (b64EncodeChars bs)).toList = b64EncodeChars bs := rfl
  rw [this, b64EncodeChars_filter, b64DecodeChars_encodeChars bs hb]

end Pseudonymization

namespace Pseudonymization

/-! ### Lemmas: GCM seal/open round trip -/

theorem natToBytes16_length (n : Nat) : (natToBytes16 n).length = 16 := by
  simp [natToBytes16]

theorem natToBytes16_bounded (n : Nat) : ByteBounded (natToBytes16 n) := by
  intro b hb
  simp only [natToBytes16, List.mem_map] at hb
  obtain ⟨i, _, rfl⟩ := hb
  exact Nat.mod_lt _ (by omega)

theorem gcmKeystream_length (key nonce : Bytes) (n : Nat) :
    (gcmKeystream key nonce n).length = n := by
  unfold gcmKeystream
  rw [List.length_take]
  have hlen : ∀ m : Nat,
      (((List.range m).map fun i =>
        natToBytes16 (bytesToNat (aesEncrypt key (ctrBlock nonce (2 + i))))).flatten).length
        = 16 * m := by
    intro m
    induction m with
    | zero => simp
    | succ k ihk =>
        rw [List.range_succ, List.map_append, List.flatten_append]
        simp [ihk, natToBytes16_length]
        omega
  rw [hlen]
  omega

theorem gcmKeystream_bounded (key nonce : Bytes) (n : Nat) :
    ByteBounded (gcmKeystream key nonce n) := by
  intro b hb
  unfold gcmKeystream at hb
  have hb' := List.mem_of_mem_take hb
  simp only [List.mem_flatten, List.mem_map] at hb'
  obtain ⟨l, ⟨i, _, rfl⟩, hbl⟩ := hb'
  exact natToBytes16_bounded _ b hbl

theorem zipWith_xor_bounded (xs ys : Bytes) (hx : ByteBounded xs)
    (hy : ByteBounded ys) : ByteBounded (xs.zipWith Nat.xor ys) := by
  intro b hb
  rw [List.mem_iff_getElem] at hb
  obtain ⟨i, hi, rfl⟩ := hb
  rw [List.getElem_zipWith]
  have h1 : i < xs.length := by
    rw [List.length_zipWith] at hi; omega
  have h2 : i < ys.length := by
    rw [List.length_zipWith] at hi; omega
  have := hx (xs[i]) (List.getElem_mem h1)
  have := hy (ys[i]) (List.getElem_mem h2)
  exact Nat.xor_lt_two_pow (n := 8) (by omega) (by omega)

theorem zipWith_xor_cancel :
    ∀ xs ys : Bytes, xs.length = ys.length →
      (xs.zipWith Nat.xor ys).zipWith Nat.xor ys = xs
  | [], [], _ => rfl
  | x :: xs, y :: ys, h => by
      simp only [List.zipWith_cons_cons, List.cons.injEq]
      exact ⟨Nat.xor_cancel_right y x,
        zipWith_xor_cancel xs ys (by simpa using h)⟩
  | [], _ :: _, h => by simp at h
  | _ :: _, [], h => by simp at h

theorem gcmSeal_length (key nonce pt : Bytes) :
    (gcmSeal key nonce pt).length = pt.length + 16 := by
  unfold gcmSeal gcmTag
  simp [List.length_zipWith, gcmKeystream_length, natToBytes16_length]

theorem gcmSeal_bounded (key nonce pt : Bytes) (hpt : ByteBounded pt) :
    ByteBounded (gcmSeal key nonce pt) := by
  intro b hb
  unfold gcmSeal at hb
  rw [List.mem_append] at hb
  rcases hb with hb | hb
  · exact zipWith_xor_bounded _ _ hpt (gcmKeystream_bounded _ _ _) b hb
  · exact natToBytes16_bounded _ b hb

theorem gcmTag_length (key nonce ct : Bytes) :
    (gcmTag key nonce ct).length = 16 := by
  unfold gcmTag
  exact natToBytes16_length _

theorem gcmOpen_gcmSeal (key nonce pt : Bytes) :
    gcmOpen key nonce (gcmSeal key nonce pt) = some pt := by
  unfold gcmOpen gcmSeal
  set ct := pt.zipWith Nat.xor (gcmKeystream key nonce pt.length) with hctdef
  have hct : ct.length = pt.length := by
    simp [hctdef, List.length_zipWith, gcmKeystream_length]
  simp only [List.length_append, gcmTag_length, hct]
  rw [if_neg (by omega)]
  have h16 : pt.length + 16 - 16 = ct.length := by omega
  rw [h16, List.take_left, List.drop_left, if_pos rfl, hct]
  rw [hctdef, zipWith_xor_cancel pt _ (by rw [gcmKeystream_length])]

end Pseudonymization

namespace Pseudonymization

/-! ### Lemmas: service-level encrypt/decrypt round trip -/

theorem sealed_bounded (key nonce pt : Bytes) (hnb : ByteBounded nonce)
    (hpt : ByteBounded pt) : ByteBounded (nonce ++ gcmSeal key nonce pt) := by
  intro b hb
  rw [List.mem_append] at hb
  rcases hb with hb | hb
  · exact hnb b hb
  · exact gcmSeal_bounded key nonce pt hpt b hb

theorem decrypt_of_encrypt (key nonce pt : Bytes)
    (hk : validKeySize key = true) (hn : nonce.length = 12)
    (hnb : ByteBounded nonce) (hpt : ByteBounded pt) :
    Service.decrypt ⟨key⟩ (b64Encode (nonce ++ gcmSeal key nonce pt)) =
      .ok pt := by
  unfold Service.decrypt
  rw [b64Decode_b64Encode _ (sealed_bounded key nonce pt hnb hpt)]
  simp only [hk, if_true]
  rw [if_neg (by rw [List.length_append, gcmSeal_length, hn]; omega)]
  rw [show (12 : Nat) = nonce.length from hn.symm, List.take_left,
    List.drop_left, gcmOpen_gcmSeal]

theorem encrypt_eq (key nonce pt : Bytes) (hk : validKeySize key = true) :
    Service.encrypt ⟨key⟩ nonce pt =
      .ok (b64Encode (nonce ++ gcmSeal key nonce pt)) := by
  unfold Service.encrypt
  rw [if_pos hk]

theorem validKeySize_of_32 (key : Bytes) (hk : key.length = 32) :
    validKeySize key = true := by
  simp [validKeySize, hk]

end Pseudonymization

namespace Pseudonymization

/-- Go's `[]byte(value)` conversion for the ASCII strings used in the
examples and tests. -/
def strBytes (s : String) : Bytes := s.toList.map Char.toNat

end Pseudonymization

open Pseudonymization Utils

set_option maxRecDepth 1000000

set_option maxHeartbeats 2000000

/-! ### The claims -/

/-- C1: Round-trip — for every non-empty value, every 32-byte key, and
every purpose/system (and every random nonce, UUID, and timestamp draw),
if the service returns a `Result` from `Pseudonymize`, then `Revert` under
the same key applied to that `Result`'s `EncryptedValue` succeeds and
returns exactly the value. -/
theorem C1_pseudonymize_revert_roundtrip
    (key nonce value : Bytes) (uuid purpose system now r_)
    (hk : key.length = 32)
    (hn : nonce.length = 12) (hnb : ByteBounded nonce)
    (hv : value ≠ []) (hvb : ByteBounded value)
    (hr : (NewService key).Pseudonymize nonce uuid now value purpose system
      = Except.ok r_) :
    (NewService key).Revert r_.EncryptedValue = Except.ok value := by
  have hks := validKeySize_of_32 key hk
  unfold NewService at hr ⊢
  unfold Service.Pseudonymize at hr
  rw [if_neg (by simpa using hv)] at hr
  rw [encrypt_eq key nonce value hks] at hr
  simp only [Except.ok.injEq] at hr
  subst hr
  unfold Service.Revert
  exact decrypt_of_encrypt key nonce value hks hn hnb hvb

/-- C1 witness: a concrete 32-byte key, 12-byte nonce, and 1-byte value on
which the hypotheses hold and the round trip returns the value. -/
theorem C1_pseudonymize_revert_roundtrip_witness :
    ([97] : Bytes) ≠ [] ∧
    (NewService (List.replicate 32 0)).Revert
      (Result.EncryptedValue ⟨"ca978112ca1bbdcafac231b39a23dc4da786eff8147c4e72b9807785afee48bb",
        "u", "AAAAAAAAAAAAAAAAr1Lsb2HV8TTGHAZJBoXkWEs=", 0⟩) = Except.ok [97] :=
  ⟨by decide,
    C1_pseudonymize_revert_roundtrip (List.replicate 32 0) (List.replicate 12 0)
      [97] "u" "p" "s" 0
      ⟨"ca978112ca1bbdcafac231b39a23dc4da786eff8147c4e72b9807785afee48bb",
        "u", "AAAAAAAAAAAAAAAAr1Lsb2HV8TTGHAZJBoXkWEs=", 0⟩
      (by decide) (by decide) (by decide) (by decide) (by decide) (by decide)⟩

/-- C3: Fingerprint purity — whenever `Pseudonymize` returns a `Result`,
its `OriginalHash` equals `Hash(value)`, the hex-encoded SHA-256 digest of
the value's bytes; the right-hand side depends on the value alone, not on
the service (key), nonce, UUID, timestamp, purpose, or system. -/
theorem C3_fingerprint_purity
    (s : Service) (nonce value : Bytes) (uuid purpose system now r_)
    (hr : s.Pseudonymize nonce uuid now value purpose system = Except.ok r_) :
    r_.OriginalHash = s.Hash value ∧
      s.Hash value = hexEncodeToString (sha256 value) := by
  refine ⟨?_, rfl⟩
  unfold Service.Pseudonymize at hr
  by_cases h0 : value.length = 0
  · rw [if_pos h0] at hr
    exact absurd hr (by simp)
  · rw [if_neg h0] at hr
    cases he : s.encrypt nonce value with
    | error e => rw [he] at hr; exact absurd hr (by simp)
    | ok e =>
        rw [he] at hr
        simp only [Except.ok.injEq] at hr
        subst hr
        rfl

/-- C3 witness: at a concrete key, nonce, and value, `Pseudonymize`
succeeds and the returned `OriginalHash` is `Hash` of the value. -/
theorem C3_fingerprint_purity_witness :
    Result.OriginalHash ⟨"ca978112ca1bbdcafac231b39a23dc4da786eff8147c4e72b9807785afee48bb",
        "u", "AAAAAAAAAAAAAAAAr1Lsb2HV8TTGHAZJBoXkWEs=", 0⟩ =
      (NewService (List.replicate 32 0)).Hash [97] ∧
    (NewService (List.replicate 32 0)).Hash [97] =
      hexEncodeToString (sha256 [97]) :=
  C3_fingerprint_purity (NewService (List.replicate 32 0))
    (List.replicate 12 0) [97] "u" "p" "s" 0
    ⟨"ca978112ca1bbdcafac231b39a23dc4da786eff8147c4e72b9807785afee48bb",
      "u", "AAAAAAAAAAAAAAAAr1Lsb2HV8TTGHAZJBoXkWEs=", 0⟩
    (by decide)

/-- C4: Empty input rejection — for every key (including malformed ones),
nonce, UUID, timestamp, purpose, and system, `Pseudonymize` of the empty
value fails with the `EmptyInput` error and produces no `Result`. -/
theorem C4_empty_input_rejected
    (key nonce : Bytes) (uuid purpose system now) :
    (NewService key).Pseudonymize nonce uuid now [] purpose system =
      Except.error PError.emptyInput := rfl

/-- C5 counterexample: the cipher accepts 16-byte keys (AES-128), so a key
whose length differs from 32 does not necessarily make the first
`Pseudonymize` fail — with a 16-byte key it succeeds. -/
theorem C5_sixteen_byte_key_succeeds :
    (List.replicate 16 0 : Bytes).length ≠ 32 ∧
    (NewService (List.replicate 16 0)).Pseudonymize (List.replicate 12 0) "u" 0
      [97] "p" "s" =
      Except.ok ⟨"ca978112ca1bbdcafac231b39a23dc4da786eff8147c4e72b9807785afee48bb",
        "u", "AAAAAAAAAAAAAAAAYkBXE0UE8geKfPqjhuQymWU=", 0⟩ :=
  ⟨by decide, by decide⟩

/-- C5 amended: `NewService` is total (construction never fails), and for
every key whose length is none of the cipher's accepted sizes (16, 24, or
32 bytes), the first `Pseudonymize` on a non-empty value fails with
`EncryptionFailure` wrapping the cipher-initialization (key-size) error. -/
theorem C5_deferred_key_validation
    (key nonce value : Bytes) (uuid purpose system now)
    (hk : ¬(key.length = 16 ∨ key.length = 24 ∨ key.length = 32))
    (hv : value ≠ []) :
    (NewService key).Pseudonymize nonce uuid now value purpose system =
      Except.error (PError.encryptionFailure PError.keySizeFailure) := by
  have hks : validKeySize key = false := by
    unfold validKeySize
    exact decide_eq_false hk
  unfold NewService Service.Pseudonymize Service.encrypt
  rw [if_neg (by simpa using hv)]
  simp [hks]

/-- C5 witness: a 31-byte key is rejected at the first `Pseudonymize`. -/
theorem C5_deferred_key_validation_witness :
    ¬((List.replicate 31 0 : Bytes).length = 16 ∨
        (List.replicate 31 0 : Bytes).length = 24 ∨
        (List.replicate 31 0 : Bytes).length = 32) ∧
    (NewService (List.replicate 31 0)).Pseudonymize [] "u" 0 [97] "p" "s" =
      Except.error (PError.encryptionFailure PError.keySizeFailure) :=
  ⟨by decide,
    C5_deferred_key_validation (List.replicate 31 0) [] [97] "u" "p" "s" 0
      (by decide) (by decide)⟩

/-- C6 counterexample: the digest of `"12345678901"` is not the spec's
63-character constant. -/
theorem C6_digest_counterexample :
    (NewService []).Hash (strBytes "12345678901") ≠
      "15e24a16abfc4fef8b8b32bce3d1d06bfd274f3660793b754d730448d3b1e53" := by
  decide

/-- C6 amended: `Hash("12345678901")` is the 64-hex-character SHA-256
digest `254aa2…74c4`, and it is also the fingerprint field of
`Pseudonymize("12345678901", …)` under a 32-byte key. -/
theorem C6_digest_amended :
    (NewService []).Hash (strBytes "12345678901") =
      "254aa248acb47dd654ca3ea53f48c2c26d641d23d7e2e93a1ec56258df7674c4" ∧
    Except.map Result.OriginalHash
      ((NewService (List.replicate 32 0)).Pseudonymize (List.replicate 12 0)
        "u" 0 (strBytes "12345678901") "p" "s") =
      Except.ok "254aa248acb47dd654ca3ea53f48c2c26d641d23d7e2e93a1ec56258df7674c4" :=
  ⟨by decide, by decide⟩

/-- C7: Truncation detection — under a 32-byte key, any `Revert` input
that is valid standard base64 but decodes to fewer than 12 bytes (the
AES-GCM nonce length) fails with `TruncatedCiphertext`. -/
theorem C7_truncated_ciphertext (key : Bytes) (ct : String) (data : Bytes)
    (hk : key.length = 32) (hdec : b64Decode ct = some data)
    (hshort : data.length < 12) :
    (NewService key).Revert ct = Except.error PError.truncatedCiphertext := by
  unfold NewService Service.Revert Service.decrypt
  rw [hdec]
  simp only [validKeySize_of_32 key hk, if_true]
  rw [if_pos hshort]

/-- C7 witness: `"AAAA"` decodes to 3 bytes and is rejected as truncated. -/
theorem C7_truncated_ciphertext_witness :
    b64Decode "AAAA" = some [0, 0, 0] ∧
    (NewService (List.replicate 32 0)).Revert "AAAA" =
      Except.error PError.truncatedCiphertext :=
  ⟨by decide,
    C7_truncated_ciphertext (List.replicate 32 0) "AAAA" [0, 0, 0]
      (by decide) (by decide) (by decide)⟩

/-- C8: Decoding failure — for every service (any key) and every `Revert`
input that is not valid standard base64, `Revert` fails with
`DecodingFailure`; the error is produced by the decode step before any
cipher work. -/
theorem C8_decoding_failure (key : Bytes) (ct : String)
    (hdec : b64Decode ct = none) :
    (NewService key).Revert ct = Except.error PError.decodingFailure := by
  unfold NewService Service.Revert Service.decrypt
  rw [hdec]

/-- C8 witness: `"not-base64!!"` is rejected with `DecodingFailure`. -/
theorem C8_decoding_failure_witness :
    b64Decode "not-base64!!" = none ∧
    (NewService []).Revert "not-base64!!" =
      Except.error PError.decodingFailure :=
  ⟨by decide, C8_decoding_failure [] "not-base64!!" (by decide)⟩

/-- C9: Ciphertext shape — under a 32-byte key, `encrypt` succeeds and its
output is the base64 encoding of `nonce ‖ ciphertext ‖ tag`; that encoding
decodes back (so it is valid standard base64), the decoded length is
`12 + |plaintext| + 16` (hence at least 28), and the first 12 decoded
bytes are the nonce. -/
theorem C9_ciphertext_shape (key nonce pt : Bytes) (hk : key.length = 32)
    (hn : nonce.length = 12) (hnb : ByteBounded nonce)
    (hpt : ByteBounded pt) :
    (NewService key).encrypt nonce pt =
      Except.ok (b64Encode (nonce ++ gcmSeal key nonce pt)) ∧
    b64Decode (b64Encode (nonce ++ gcmSeal key nonce pt)) =
      some (nonce ++ gcmSeal key nonce pt) ∧
    (nonce ++ gcmSeal key nonce pt).length = 12 + pt.length + 16 ∧
    (nonce ++ gcmSeal key nonce pt).take 12 = nonce := by
  refine ⟨encrypt_eq key nonce pt (validKeySize_of_32 key hk),
    b64Decode_b64Encode _ (sealed_bounded key nonce pt hnb hpt), ?_, ?_⟩
  · rw [List.length_append, gcmSeal_length, hn]
    omega
  · rw [show (12 : Nat) = nonce.length from hn.symm, List.take_left]

/-- C9 witness: the shape facts at a concrete key, nonce, and plaintext. -/
theorem C9_ciphertext_shape_witness :
    (NewService (List.replicate 32 0)).encrypt (List.replicate 12 0) [97] =
      Except.ok (b64Encode (List.replicate 12 0 ++
        gcmSeal (List.replicate 32 0) (List.replicate 12 0) [97])) ∧
    b64Decode (b64Encode (List.replicate 12 0 ++
        gcmSeal (List.replicate 32 0) (List.replicate 12 0) [97])) =
      some (List.replicate 12 0 ++
        gcmSeal (List.replicate 32 0) (List.replicate 12 0) [97]) ∧
    (List.replicate 12 0 ++
        gcmSeal (List.replicate 32 0) (List.replicate 12 0) [97]).length =
      12 + ([97] : Bytes).length + 16 ∧
    (List.replicate 12 0 ++
        gcmSeal (List.replicate 32 0) (List.replicate 12 0) [97]).take 12 =
      List.replicate 12 0 :=
  C9_ciphertext_shape (List.replicate 32 0) (List.replicate 12 0) [97]
    (by decide) (by decide) (by decide) (by decide)

/-- C10: the generator's own validator rejects one possible output — when
all six random digits are 9, `GenerateSyntheticCPF` returns
`"999.999.999-99"`, whose check digits do satisfy the CPF equations but
which `IsValidCPF` rejects through its repeated-digits guard. -/
theorem C10_generator_all_nines_invalid :
    GenerateSyntheticCPF [9, 9, 9, 9, 9, 9] = "999.999.999-99" ∧
    IsValidCPF (GenerateSyntheticCPF [9, 9, 9, 9, 9, 9]) = false :=
  ⟨by decide, by decide⟩
